import Mathlib

/-
Verification of the collaborative-whiteboard coordination server
(src/Backend/server.js) against its natural-language specification.

The socket-event handlers of server.js are shallowly embedded as pure
functions over an explicit server state.  JavaScript objects used as string
keyed maps become association lists, JavaScript Sets become duplicate-free
lists with insertion-order semantics, and each handler returns the updated
state together with the list of events it emits (each event tagged with its
socket.io target: a single socket, a whole room, or a room minus the sender).
Durable-store (MongoDB) calls are applied synchronously, matching the
single-threaded run-to-completion execution of the handlers; the bounded
retry loop of the persistence helpers is modelled separately over an
explicit failure oracle.  Fields no verified property touches (poll lists,
timestamps, populated display names, timer handles) are omitted; everything
a claim observes is translated from the source.
-/

namespace Whiteboard

/-! ## Association-list maps (JavaScript objects / Maps keyed by strings) -/

def alookup {α : Type} : List (String × α) → String → Option α
  | [], _ => none
  | (k, v) :: m, key => if k = key then some v else alookup m key

def aerase {α : Type} : List (String × α) → String → List (String × α)
  | [], _ => []
  | p :: m, k => if p.1 = k then aerase m k else p :: aerase m k

def aset {α : Type} (m : List (String × α)) (k : String) (v : α) :
    List (String × α) :=
  (k, v) :: aerase m k

def entriesFor {α : Type} : List (String × α) → String → List (String × α)
  | [], _ => []
  | p :: m, k => if p.1 = k then p :: entriesFor m k else entriesFor m k

theorem alookup_aerase {α : Type} (m : List (String × α)) (k key : String) :
    alookup (aerase m k) key = if key = k then none else alookup m key := by
  induction m with
  | nil => simp [aerase, alookup]
  | cons p m ih =>
    obtain ⟨pk, pv⟩ := p
    by_cases hpk : pk = k
    · rw [aerase, if_pos hpk, ih]
      by_cases hkey : key = k
      · simp [hkey]
      · have hkpk : ¬ pk = key := fun h => hkey (hpk ▸ h.symm)
        rw [if_neg hkey, if_neg hkey, alookup, if_neg hkpk]
    · rw [aerase, if_neg hpk, alookup]
      by_cases hpkey : pk = key
      · subst hpkey
        rw [if_pos rfl, if_neg hpk, alookup, if_pos rfl]
      · rw [if_neg hpkey, ih]
        by_cases hkey : key = k
        · rw [if_pos hkey, if_pos hkey]
        · rw [if_neg hkey, if_neg hkey, alookup, if_neg hpkey]

theorem alookup_aset_self {α : Type} (m : List (String × α)) (k : String)
    (v : α) : alookup (aset m k v) k = some v := by
  simp [aset, alookup]

theorem alookup_aset_ne {α : Type} (m : List (String × α)) (k key : String)
    (v : α) (h : key ≠ k) : alookup (aset m k v) key = alookup m key := by
  rw [aset, alookup, if_neg (fun h' => h h'.symm), alookup_aerase, if_neg h]

theorem mem_aerase {α : Type} {m : List (String × α)} {k : String}
    {p : String × α} (h : p ∈ aerase m k) : p ∈ m := by
  induction m with
  | nil => simp [aerase] at h
  | cons q m ih =>
    rw [aerase] at h
    split at h
    · exact List.mem_cons_of_mem _ (ih h)
    · rcases List.mem_cons.mp h with h | h
      · exact h ▸ List.mem_cons_self _ _
      · exact List.mem_cons_of_mem _ (ih h)

theorem mem_aset {α : Type} {m : List (String × α)} {k : String} {v : α}
    {p : String × α} (h : p ∈ aset m k v) : p = (k, v) ∨ p ∈ m := by
  rcases List.mem_cons.mp h with h | h
  · exact Or.inl h
  · exact Or.inr (mem_aerase h)

theorem alookup_some_mem {α : Type} {m : List (String × α)} {k : String}
    {v : α} (h : alookup m k = some v) : (k, v) ∈ m := by
  induction m with
  | nil => simp [alookup] at h
  | cons p m ih =>
    obtain ⟨pk, pv⟩ := p
    rw [alookup] at h
    split at h
    · rename_i heq
      cases h
      exact heq ▸ List.mem_cons_self _ _
    · exact List.mem_cons_of_mem _ (ih h)

theorem entriesFor_aerase {α : Type} (m : List (String × α)) (k : String) :
    entriesFor (aerase m k) k = [] := by
  induction m with
  | nil => rfl
  | cons p m ih =>
    rw [aerase]
    split
    · exact ih
    · rename_i hpk
      rw [entriesFor, if_neg hpk]
      exact ih

theorem entriesFor_aset {α : Type} (m : List (String × α)) (k : String)
    (v : α) : entriesFor (aset m k v) k = [(k, v)] := by
  rw [aset, entriesFor, if_pos rfl, entriesFor_aerase]

/-! ## Insertion-ordered sets (JavaScript Set of string ids) -/

def sadd (l : List String) (x : String) : List String :=
  if x ∈ l then l else l ++ [x]

def sdel : List String → String → List String
  | [], _ => []
  | y :: l, x => if y = x then sdel l x else y :: sdel l x

theorem sadd_of_mem {l : List String} {x : String} (h : x ∈ l) :
    sadd l x = l := by simp [sadd, h]

theorem sadd_of_not_mem {l : List String} {x : String} (h : x ∉ l) :
    sadd l x = l ++ [x] := by simp [sadd, h]

theorem sdel_of_not_mem {l : List String} {x : String} (h : x ∉ l) :
    sdel l x = l := by
  induction l with
  | nil => rfl
  | cons y l ih =>
    have hyx : ¬ y = x := fun hyx => h (by rw [← hyx]; exact List.mem_cons_self y l)
    rw [sdel, if_neg hyx, ih (fun hx => h (List.mem_cons_of_mem y hx))]

theorem length_sdel_of_mem_nodup {l : List String} {x : String}
    (hn : l.Nodup) (hm : x ∈ l) : (sdel l x).length + 1 = l.length := by
  induction l with
  | nil => simp at hm
  | cons y l ih =>
    rcases List.mem_cons.mp hm with h | h
    · subst h
      rw [sdel, if_pos rfl, sdel_of_not_mem (List.nodup_cons.mp hn).1]
      simp
    · have hyx : y ≠ x := fun h' => (List.nodup_cons.mp hn).1 (h' ▸ h)
      rw [sdel, if_neg hyx]
      simp only [List.length_cons]
      rw [← ih (List.nodup_cons.mp hn).2 h]

theorem foldl_sadd_of_subset {l : List String} :
    ∀ (ps : List String), (∀ p ∈ ps, p ∈ l) → ps.foldl sadd l = l := by
  intro ps
  induction ps with
  | nil => intro _; rfl
  | cons p ps ih =>
    intro h
    simp only [List.foldl_cons, sadd_of_mem (h p (List.mem_cons_self p ps))]
    exact ih (fun q hq => h q (List.mem_cons_of_mem p hq))

/-! ## Data model (server.js in-memory and durable structures) -/

/-- Coordinates of one point of a stroke; the handlers treat point data as
opaque payload, so a pair of integers stands in for the client point object. -/
abbrev Point := Int × Int

/-- Chat messages are opaque payload to the server; a string stands in. -/
abbrev ChatMsg := String

/-- One completed whiteboard stroke as saved by the whiteboard-point handler
(strokeToSave in server.js): the full point sequence plus the style
descriptor, with the text payload kept only for the text tool. -/
structure Stroke where
  points : List Point
  color : String
  size : Nat
  tool : String
  shape : Option String
  textContent : Option String
deriving DecidableEq

/-- In-memory per-session state (activeSessionsInMemory values in
server.js); participants is a JavaScript Set, modelled as an
insertion-ordered duplicate-free list.  The polls list and the duplicated
host field are omitted: no verified property touches them. -/
structure SessState where
  name : String
  ownerId : String
  participants : List String
  messages : List ChatMsg
  whiteboardStrokes : List Stroke
  drawingPermissions : List (String × Bool)
  isPrivate : Bool
  sessionKey : Option String
deriving DecidableEq

/-- Durable session record (the mongoose Session document as used by
server.js). -/
structure MongoSession where
  name : String
  host : String
  participants : List String
  drawingPermissions : List (String × Bool)
  messages : List ChatMsg
  whiteboardStrokes : List Stroke
  isPrivate : Bool
  sessionKey : Option String
deriving DecidableEq

/-- Entry of socketIdToSessionInfo: which user and session a socket was
joined for. -/
structure SockInfo where
  userId : String
  sessionId : String
deriving DecidableEq

/-- Entry of pendingJoinRequests: the requester name and the socket id
captured when the request was filed. -/
structure PendingInfo where
  username : String
  socketId : String
deriving DecidableEq

/-- The snapshot sent in a session-state event.  The populated
detailed-participant list, the poll list and the two wall-clock timestamps
are omitted; participantCount and every other field are taken from the
in-memory session state exactly as in server.js. -/
structure Snapshot where
  sessionName : String
  messages : List ChatMsg
  participantCount : Nat
  whiteboardStrokes : List Stroke
  ownerId : String
  drawingPermissions : List (String × Bool)
  isPrivate : Bool
deriving DecidableEq

/-- Events a handler can emit. -/
inductive SEvent where
  | sessionStateEvt (snap : Snapshot)
  | joinFailed (msg : String)
  | sessionNotFound (sessionId : String)
  | joinAwaitingApproval (sessionId sessionName : String)
  | newJoinRequest (sessionId requesterId requesterName socketId : String)
  | userJoined (userId username : String) (participantCount : Nat)
  | userLeft (userId : String) (participantCount : Nat)
      (newOwnerId : Option String)
  | kickFailed (msg : String)
  | youWereKicked (sessionId msg : String)
  | whiteboardPointEvt (userId : String) (points : List Point)
      (color : String) (size : Nat) (tool : String) (shape : Option String)
      (textContent : Option String) (isEnd : Bool)
  | whiteboardUpdateEvt (strokes : List Stroke)
  | drawingPermissionsUpdated (perms : List (String × Bool))
  | chatMessageEvt (m : ChatMsg)
  | joinApproved (sessionId sessionName : String)
deriving DecidableEq

/-- Emission target, mirroring the three socket.io emit forms used in
server.js: socket.emit (one socket), io.to(room).emit (every socket in the
room), socket.to(room).emit (every socket in the room except the sender). -/
inductive Target where
  | socket (sid : String)
  | room (sessionId : String)
  | roomExcept (sessionId senderSocket : String)
deriving DecidableEq

structure Emit where
  target : Target
  event : SEvent
deriving DecidableEq

def emitTo (sid : String) (e : SEvent) : Emit := ⟨Target.socket sid, e⟩

/-- The whole coordinating-process state: the process-wide maps of
server.js plus the socket.io bookkeeping (connected sockets and room
membership) the handlers interact with.  Timer handles of the cleanup
scheduler are reduced to the set of sessions with a deletion scheduled. -/
structure ServerState where
  activeSessionsInMemory : List (String × SessState)
  socketIdToSessionInfo : List (String × SockInfo)
  activeUserSockets : List (String × String)
  pendingJoinRequests : List (String × List (String × PendingInfo))
  connectedSockets : List String
  rooms : List (String × List String)
  mongo : List (String × MongoSession)
  deletionScheduled : List String
deriving DecidableEq

/-! ## State helpers (translations of the small operations the handlers
perform on the process-wide maps and on socket.io rooms) -/

/-- JavaScript truthiness of an optional string (undefined and the empty
string are falsy). -/
def jsStrTruthy : Option String → Bool
  | none => false
  | some s => !(s == "")

/-- The private-session key check of the join handler, line for line:
not sessionKey, or mongoSession.sessionKey strictly different from it. -/
def keyInvalid (provided stored : Option String) : Bool :=
  match provided with
  | none => true
  | some k => k == "" || !(stored == some k)

def writeCache (st : ServerState) (sessionId : String) (ss : SessState) :
    ServerState :=
  {st with activeSessionsInMemory := aset st.activeSessionsInMemory sessionId ss}

def roomJoin (st : ServerState) (sessionId sock : String) : ServerState :=
  {st with
    rooms := aset st.rooms sessionId
      (sadd ((alookup st.rooms sessionId).getD []) sock)}

def roomLeave (st : ServerState) (sessionId sock : String) : ServerState :=
  {st with
    rooms := aset st.rooms sessionId
      (sdel ((alookup st.rooms sessionId).getD []) sock)}

def disconnectSocket (st : ServerState) (sock : String) : ServerState :=
  {st with connectedSockets := sdel st.connectedSockets sock,
           rooms := st.rooms.map (fun r => (r.1, sdel r.2 sock))}

def addPending (st : ServerState) (sessionId userId : String)
    (info : PendingInfo) : ServerState :=
  let m := (alookup st.pendingJoinRequests sessionId).getD []
  {st with
    pendingJoinRequests :=
      aset st.pendingJoinRequests sessionId (aset m userId info)}

/-- Delete a pending entry and drop the per-session map once empty, as every
cleanup site in server.js does. -/
def removePending (st : ServerState) (sessionId userId : String) :
    ServerState :=
  match alookup st.pendingJoinRequests sessionId with
  | none => st
  | some m =>
    let m' := aerase m userId
    if m'.isEmpty then
      {st with pendingJoinRequests := aerase st.pendingJoinRequests sessionId}
    else
      {st with pendingJoinRequests := aset st.pendingJoinRequests sessionId m'}

def scheduleDeletion (st : ServerState) (sessionId : String) : ServerState :=
  {st with deletionScheduled := sadd st.deletionScheduled sessionId}

def cancelDeletion (st : ServerState) (sessionId : String) : ServerState :=
  {st with deletionScheduled := sdel st.deletionScheduled sessionId}

/-! ## Durable-store operations (success path of the retrying MongoDB
helpers of server.js; the retry loop itself is modelled further below) -/

/-- updateSessionInMongoDB with a drawingPermissions patch: findOneAndUpdate
with upsert false, so a missing document is left missing. -/
def updateMongoPermissions (st : ServerState) (sessionId : String)
    (perms : List (String × Bool)) : ServerState :=
  match alookup st.mongo sessionId with
  | some doc =>
    {st with
      mongo := aset st.mongo sessionId {doc with drawingPermissions := perms}}
  | none => st

/-- updateSessionInMongoDB with a whiteboardStrokes patch. -/
def updateMongoStrokes (st : ServerState) (sessionId : String)
    (strokes : List Stroke) : ServerState :=
  match alookup st.mongo sessionId with
  | some doc =>
    {st with
      mongo := aset st.mongo sessionId {doc with whiteboardStrokes := strokes}}
  | none => st

/-- updateSessionInMongoDB with a messages patch. -/
def updateMongoMessages (st : ServerState) (sessionId : String)
    (msgs : List ChatMsg) : ServerState :=
  match alookup st.mongo sessionId with
  | some doc =>
    {st with mongo := aset st.mongo sessionId {doc with messages := msgs}}
  | none => st

/-- updateSessionInMongoDB with the host / ownerId / drawingPermissions
patch issued on ownership reassignment. -/
def updateMongoOwner (st : ServerState) (sessionId newOwner : String)
    (perms : List (String × Bool)) : ServerState :=
  match alookup st.mongo sessionId with
  | some doc =>
    {st with
      mongo := aset st.mongo sessionId
        {doc with host := newOwner, drawingPermissions := perms}}
  | none => st

def addParticipantToMongoSession (st : ServerState)
    (sessionId userId : String) : ServerState :=
  match alookup st.mongo sessionId with
  | some doc =>
    if userId ∈ doc.participants then st
    else
      {st with
        mongo := aset st.mongo sessionId
          {doc with participants := doc.participants ++ [userId]}}
  | none => st

def removeParticipantFromMongoSession (st : ServerState)
    (sessionId userId : String) : ServerState :=
  match alookup st.mongo sessionId with
  | some doc =>
    {st with
      mongo := aset st.mongo sessionId
        {doc with
          participants := sdel doc.participants userId,
          drawingPermissions := aerase doc.drawingPermissions userId}}
  | none => st

/-! ## Event handlers -/

/-- Failure and notice strings emitted by server.js. -/
def privateKeyMsg : String :=
  "This is a private session. Invalid or missing session key."

def ownerOfflineMsg : String :=
  "Session owner is offline. Cannot join private session at this time."

def selfKickMsg : String := "You cannot kick yourself (the session owner)."

def kickedMsg : String :=
  "You have been kicked from the session by the owner."

def kickNotFoundMsg : String := "Participant not found in this session."

/-- Initial in-memory state hydrated from the durable record on first join
(the activeSessionsInMemory.set block of the join handler); the participant
set starts empty and is filled from the document just after. -/
def hydrate (doc : MongoSession) : SessState :=
  { name := doc.name
    ownerId := doc.host
    participants := []
    messages := doc.messages
    whiteboardStrokes := doc.whiteboardStrokes
    drawingPermissions := doc.drawingPermissions
    isPrivate := doc.isPrivate
    sessionKey := doc.sessionKey }

def mkSnapshot (ss : SessState) : Snapshot :=
  { sessionName := ss.name
    messages := ss.messages
    participantCount := ss.participants.length
    whiteboardStrokes := ss.whiteboardStrokes
    ownerId := ss.ownerId
    drawingPermissions := ss.drawingPermissions
    isPrivate := ss.isPrivate }

/-- Tail of the join handler for public sessions (the code below the
privacy block): hydrate the cache if absent, merge the durable participant
list, add the joiner if new, set a default drawing permission if unset,
join the room, send the snapshot, and broadcast user-joined if the joiner
is new. -/
def publicJoin (st : ServerState) (sock sessionId userId username : String)
    (doc : MongoSession) : ServerState × List Emit :=
  let ss0 := match alookup st.activeSessionsInMemory sessionId with
    | some ss => ss
    | none => hydrate doc
  let ss1 := {ss0 with participants := doc.participants.foldl sadd ss0.participants}
  let isMem := decide (userId ∈ ss1.participants)
  let ss2 := if isMem then ss1
    else {ss1 with participants := sadd ss1.participants userId}
  let st1 := if isMem then st
    else addParticipantToMongoSession st sessionId userId
  let needPerm := decide (alookup ss2.drawingPermissions userId = none)
  let permVal := if doc.isPrivate then decide (userId = ss2.ownerId) else true
  let ss3 := if needPerm then
      {ss2 with drawingPermissions := aset ss2.drawingPermissions userId permVal}
    else ss2
  let st2 := if needPerm then
      updateMongoPermissions st1 sessionId ss3.drawingPermissions
    else st1
  let st3 := roomJoin (writeCache st2 sessionId ss3) sessionId sock
  (st3, emitTo sock (SEvent.sessionStateEvt (mkSnapshot ss3)) ::
    (if isMem then []
     else [⟨Target.roomExcept sessionId sock,
            SEvent.userJoined userId username ss3.participants.length⟩]))

/-- Privacy gate of the join handler: a private session first validates the
key, then unconditionally files a pending request and awaits owner
approval (failing instead when the owner has no live socket); a public
session proceeds directly. -/
def joinPhase2 (st : ServerState) (sock sessionId userId username : String)
    (sessionKey : Option String) (doc : MongoSession) :
    ServerState × List Emit :=
  if doc.isPrivate then
    if keyInvalid sessionKey doc.sessionKey then
      (st, [emitTo sock (SEvent.joinFailed privateKeyMsg)])
    else
      let st1 := addPending st sessionId userId ⟨username, sock⟩
      match alookup st1.activeUserSockets doc.host with
      | some ownerSock =>
        (st1, [emitTo ownerSock
                 (SEvent.newJoinRequest sessionId userId username sock),
               emitTo sock (SEvent.joinAwaitingApproval sessionId doc.name)])
      | none =>
        (removePending st1 sessionId userId,
         [emitTo sock (SEvent.joinFailed ownerOfflineMsg)])
  else
    publicJoin st sock sessionId userId username doc

/-- The join-session handler.  The socket is recorded in
socketIdToSessionInfo first; a missing durable record is auto-created when
a session name is supplied (the create branch of
createOrUpdateMongoSession, with the joiner as host) and otherwise answered
with a session-not-found event. -/
def joinSession (st : ServerState) (sock sessionId userId username : String)
    (sessionName : Option String) (isPrivate : Option Bool)
    (sessionKey : Option String) : ServerState × List Emit :=
  let st1 :=
    {st with
      socketIdToSessionInfo :=
        aset st.socketIdToSessionInfo sock ⟨userId, sessionId⟩}
  match alookup st1.mongo sessionId with
  | none =>
    if jsStrTruthy sessionName then
      let doc : MongoSession :=
        { name := sessionName.getD ""
          host := userId
          participants := if userId ≠ "" then [userId] else []
          drawingPermissions := if userId ≠ "" then [(userId, true)] else []
          messages := []
          whiteboardStrokes := []
          isPrivate := isPrivate.getD false
          sessionKey := if isPrivate.getD false then sessionKey else none }
      let st2 := {st1 with mongo := aset st1.mongo sessionId doc}
      joinPhase2 st2 sock sessionId userId username sessionKey doc
    else
      (st1, [emitTo sock (SEvent.sessionNotFound sessionId)])
  | some doc => joinPhase2 st1 sock sessionId userId username sessionKey doc

/-- The approve-join-request handler.  The requester socket is looked up by
the requesterSocketId argument the owner passed along (the id captured when
the request was filed); if that socket is gone, the handler returns after
the pending entry has already been removed. -/
def approveJoinRequest (st : ServerState)
    (sock sessionId requesterId requesterSocketId : String) :
    ServerState × List Emit :=
  let requestingUserId :=
    (alookup st.socketIdToSessionInfo sock).map SockInfo.userId
  match alookup st.activeSessionsInMemory sessionId with
  | none => (st, [])
  | some ss =>
    if requestingUserId ≠ some ss.ownerId then (st, [])
    else
      match (alookup st.pendingJoinRequests sessionId).bind
          (fun m => alookup m requesterId) with
      | none => (st, [])
      | some requesterInfo =>
        let st1 := removePending st sessionId requesterId
        if requesterSocketId ∈ st1.connectedSockets then
          let isMem := decide (requesterId ∈ ss.participants)
          let ss1 := if isMem then ss
            else {ss with participants := sadd ss.participants requesterId}
          let st2 := if isMem then st1
            else addParticipantToMongoSession st1 sessionId requesterId
          let needPerm := decide (alookup ss1.drawingPermissions requesterId = none)
          let ss2 := if needPerm then
              {ss1 with
                drawingPermissions := aset ss1.drawingPermissions
                  requesterId (decide (requesterId = ss.ownerId))}
            else ss1
          let st3 := if needPerm then
              updateMongoPermissions st2 sessionId ss2.drawingPermissions
            else st2
          let st4 := roomJoin (writeCache st3 sessionId ss2) sessionId
            requesterSocketId
          (st4, [emitTo requesterSocketId
                   (SEvent.sessionStateEvt (mkSnapshot ss2)),
                 emitTo requesterSocketId
                   (SEvent.joinApproved sessionId ss.name),
                 ⟨Target.room sessionId,
                  SEvent.userJoined requesterId requesterInfo.username
                    ss2.participants.length⟩])
        else (st1, [])

/-- The kick-participant handler.  A non-owner requester (or a missing
cache entry) is answered with nothing at all; only the self-kick and the
target-not-found cases produce a kick-failed event. -/
def kickParticipant (st : ServerState)
    (sock sessionId targetUserId : String) : ServerState × List Emit :=
  let requestingUserId :=
    (alookup st.socketIdToSessionInfo sock).map SockInfo.userId
  match alookup st.activeSessionsInMemory sessionId with
  | none => (st, [])
  | some ss =>
    if requestingUserId ≠ some ss.ownerId then (st, [])
    else if targetUserId = ss.ownerId then
      (st, [emitTo sock (SEvent.kickFailed selfKickMsg)])
    else if targetUserId ∈ ss.participants then
      let ss1 := {ss with participants := sdel ss.participants targetUserId}
      let st1 := removeParticipantFromMongoSession st sessionId targetUserId
      -- owner-reassignment branch of the source, unreachable on this path
      -- because the self-kick case already returned
      let reassign := decide (ss1.ownerId = targetUserId) &&
        decide (0 < ss1.participants.length)
      let newOwnerId := if reassign then ss1.participants.headD ""
        else ss1.ownerId
      let ss2 := if reassign then
          {ss1 with ownerId := newOwnerId,
                    drawingPermissions := aset ss1.drawingPermissions newOwnerId true}
        else ss1
      let st2 := if reassign then
          updateMongoOwner st1 sessionId newOwnerId ss2.drawingPermissions
        else st1
      let socketsToKick := st2.connectedSockets.filter (fun s =>
        decide (alookup st2.socketIdToSessionInfo s =
          some ⟨targetUserId, sessionId⟩))
      let st3 := socketsToKick.foldl
        (fun acc s => roomLeave acc sessionId s) st2
      let st4 := writeCache st3 sessionId ss2
      let st5 := if ss2.participants.length = 0 then
          scheduleDeletion st4 sessionId
        else cancelDeletion st4 sessionId
      (st5, socketsToKick.map
          (fun s => emitTo s (SEvent.youWereKicked sessionId kickedMsg)) ++
        [⟨Target.room sessionId,
          SEvent.userLeft targetUserId ss2.participants.length
            (some newOwnerId)⟩])
    else
      (st, [emitTo sock (SEvent.kickFailed kickNotFoundMsg)])

/-- The whiteboard-point handler: drop silently when the session is not
hydrated or the author is neither owner nor permitted; otherwise forward
the batch verbatim to the room excluding the sender, and on the end flag
append the completed stroke to the cached and durable stroke logs. -/
def whiteboardPoint (st : ServerState) (sock sessionId userId : String)
    (points : List Point) (color : String) (size : Nat) (tool : String)
    (shape textContent : Option String) (isEnd : Bool) :
    ServerState × List Emit :=
  match alookup st.activeSessionsInMemory sessionId with
  | none => (st, [])
  | some ss =>
    if ss.ownerId ≠ userId ∧ alookup ss.drawingPermissions userId ≠ some true then
      (st, [])
    else
      let fwd : Emit := ⟨Target.roomExcept sessionId sock,
        SEvent.whiteboardPointEvt userId points color size tool shape
          textContent isEnd⟩
      if isEnd then
        let strokeToSave : Stroke :=
          ⟨points, color, size, tool, shape,
           if tool = "text" then textContent else none⟩
        let ss1 := {ss with whiteboardStrokes :=
          ss.whiteboardStrokes ++ [strokeToSave]}
        (updateMongoStrokes (writeCache st sessionId ss1) sessionId
          ss1.whiteboardStrokes, [fwd])
      else (st, [fwd])

/-- The whiteboard-update handler (whole-canvas replace, owner only). -/
def whiteboardUpdate (st : ServerState) (sock sessionId : String)
    (strokes : List Stroke) : ServerState × List Emit :=
  match alookup st.activeSessionsInMemory sessionId with
  | none => (st, [])
  | some ss =>
    let requestingUserId :=
      (alookup st.socketIdToSessionInfo sock).map SockInfo.userId
    if requestingUserId ≠ some ss.ownerId then (st, [])
    else
      let ss1 := {ss with whiteboardStrokes := strokes}
      (updateMongoStrokes (writeCache st sessionId ss1) sessionId strokes,
       [⟨Target.roomExcept sessionId sock,
         SEvent.whiteboardUpdateEvt strokes⟩])

/-- The set-drawing-permission handler: the owner sets the target user's
bit to the requested value, with no restriction on the target. -/
def setDrawingPermission (st : ServerState)
    (sock sessionId targetUserId : String) (hasPermission : Bool) :
    ServerState × List Emit :=
  let requestingUserId :=
    (alookup st.socketIdToSessionInfo sock).map SockInfo.userId
  match alookup st.activeSessionsInMemory sessionId with
  | none => (st, [])
  | some ss =>
    if requestingUserId ≠ some ss.ownerId then (st, [])
    else
      let ss1 :=
        {ss with
          drawingPermissions :=
            aset ss.drawingPermissions targetUserId hasPermission}
      (updateMongoPermissions (writeCache st sessionId ss1) sessionId
        ss1.drawingPermissions,
       [⟨Target.room sessionId,
         SEvent.drawingPermissionsUpdated ss1.drawingPermissions⟩])

/-- The grant-all-drawing-permissions handler: every participant set to
true, the owner set to true last. -/
def grantAllDrawingPermissions (st : ServerState) (sock sessionId : String) :
    ServerState × List Emit :=
  let requestingUserId :=
    (alookup st.socketIdToSessionInfo sock).map SockInfo.userId
  match alookup st.activeSessionsInMemory sessionId with
  | none => (st, [])
  | some ss =>
    if requestingUserId ≠ some ss.ownerId then (st, [])
    else
      let perms1 := ss.participants.foldl (fun m p => aset m p true)
        ss.drawingPermissions
      let perms2 := aset perms1 ss.ownerId true
      let ss1 := {ss with drawingPermissions := perms2}
      (updateMongoPermissions (writeCache st sessionId ss1) sessionId perms2,
       [⟨Target.room sessionId, SEvent.drawingPermissionsUpdated perms2⟩])

/-- The revoke-all-drawing-permissions handler: the map is reset, the owner
pinned to true, every other participant set to false. -/
def revokeAllDrawingPermissions (st : ServerState) (sock sessionId : String) :
    ServerState × List Emit :=
  let requestingUserId :=
    (alookup st.socketIdToSessionInfo sock).map SockInfo.userId
  match alookup st.activeSessionsInMemory sessionId with
  | none => (st, [])
  | some ss =>
    if requestingUserId ≠ some ss.ownerId then (st, [])
    else
      let perms0 := aset ([] : List (String × Bool)) ss.ownerId true
      let perms1 := ss.participants.foldl
        (fun m p => if p = ss.ownerId then m else aset m p false) perms0
      let ss1 := {ss with drawingPermissions := perms1}
      (updateMongoPermissions (writeCache st sessionId ss1) sessionId perms1,
       [⟨Target.room sessionId, SEvent.drawingPermissionsUpdated perms1⟩])

/-- The chat-message handler: any sender whose named session is cached gets
the message appended, persisted and rebroadcast to the room excluding the
sending socket; the sending user is never inspected. -/
def chatMessage (st : ServerState) (sock sessionId : String) (m : ChatMsg) :
    ServerState × List Emit :=
  match alookup st.activeSessionsInMemory sessionId with
  | none => (st, [])
  | some ss =>
    let ss1 := {ss with messages := ss.messages ++ [m]}
    (updateMongoMessages (writeCache st sessionId ss1) sessionId ss1.messages,
     [⟨Target.roomExcept sessionId sock, SEvent.chatMessageEvt m⟩])

/-- The user-leave-session handler, including ownership reassignment to the
first remaining participant in insertion order. -/
def userLeaveSession (st : ServerState) (sock sessionId userId : String) :
    ServerState × List Emit :=
  match alookup st.activeSessionsInMemory sessionId with
  | none => (roomLeave st sessionId sock, [])
  | some ss =>
    let st1 := removePending st sessionId userId
    if userId ∈ ss.participants then
      let ss1 := {ss with participants := sdel ss.participants userId}
      let st2 := removeParticipantFromMongoSession st1 sessionId userId
      let reassign := decide (ss1.ownerId = userId) &&
        decide (0 < ss1.participants.length)
      let newOwnerId := if reassign then ss1.participants.headD ""
        else ss1.ownerId
      let ss2 := if reassign then
          {ss1 with ownerId := newOwnerId,
                    drawingPermissions := aset ss1.drawingPermissions newOwnerId true}
        else ss1
      let st3 := if reassign then
          updateMongoOwner st2 sessionId newOwnerId ss2.drawingPermissions
        else st2
      let st4 :=
        {st3 with
          socketIdToSessionInfo := aerase st3.socketIdToSessionInfo sock}
      let st5 := if alookup st4.activeUserSockets userId = some sock then
          {st4 with activeUserSockets := aerase st4.activeUserSockets userId}
        else st4
      let st6 := writeCache st5 sessionId ss2
      let st7 := if ss2.participants.length = 0 then
          scheduleDeletion st6 sessionId
        else cancelDeletion st6 sessionId
      (roomLeave st7 sessionId sock,
       [⟨Target.roomExcept sessionId sock,
         SEvent.userLeft userId ss2.participants.length (some ss2.ownerId)⟩])
    else (roomLeave st1 sessionId sock, [])

/-- The connection handler: a user connecting while already holding a
registered socket evicts the old one — and when that stale socket was the
user's last socket bound to its session, the user is removed from that
session's participant set with a user-left broadcast — before the new
socket is registered as the user's single live channel. -/
def connectClient (st : ServerState) (newSock userId : String) :
    ServerState × List Emit :=
  let st0 := {st with connectedSockets := sadd st.connectedSockets newSock}
  if userId ≠ "" then
    match alookup st0.activeUserSockets userId with
    | some oldSock =>
      let inner :=
        match alookup st0.socketIdToSessionInfo oldSock with
        | some oldInfo =>
          let evicted :=
            match alookup st0.activeSessionsInMemory oldInfo.sessionId with
            | some ss =>
              let others := st0.connectedSockets.filter (fun s =>
                decide (alookup st0.socketIdToSessionInfo s =
                  some (SockInfo.mk userId oldInfo.sessionId)) &&
                decide (s ≠ oldSock))
              if others.isEmpty then
                let ss1 := {ss with participants := sdel ss.participants userId}
                (writeCache st0 oldInfo.sessionId ss1,
                 [(⟨Target.room oldInfo.sessionId,
                    SEvent.userLeft userId ss1.participants.length none⟩ : Emit)])
              else (st0, ([] : List Emit))
            | none => (st0, ([] : List Emit))
          ({evicted.1 with
             socketIdToSessionInfo :=
               aerase evicted.1.socketIdToSessionInfo oldSock}, evicted.2)
        | none => (st0, ([] : List Emit))
      let st2 := disconnectSocket inner.1 oldSock
      ({st2 with activeUserSockets := aset st2.activeUserSockets userId newSock},
       inner.2)
    | none =>
      ({st0 with activeUserSockets := aset st0.activeUserSockets userId newSock},
       [])
  else (st0, [])

/-! ## Persistence retry wrapper (the while loop shared by every MongoDB
helper of server.js) -/

def MAX_RETRIES : Nat := 3

/-- Milliseconds slept between attempts. -/
def RETRY_DELAY : Nat := 1000

structure RetryOutcome where
  attempts : Nat
  delays : Nat
  ok : Bool
deriving DecidableEq

/-- The retry loop over an oracle saying which attempt indices throw:
while retries < MAX_RETRIES, try; on error increment retries, rethrow when
they reach MAX_RETRIES, otherwise sleep RETRY_DELAY and loop.  The fuel is
MAX_RETRIES minus retries, so the recursion mirrors the loop exactly. -/
def runRetries (fails : Nat → Bool) : Nat → Nat → RetryOutcome
  | 0, _ => ⟨0, 0, false⟩
  | fuel + 1, retries =>
    if fails retries then
      if retries + 1 = MAX_RETRIES then ⟨1, 0, false⟩
      else
        let r := runRetries fails fuel (retries + 1)
        ⟨r.attempts + 1, r.delays + 1, r.ok⟩
    else ⟨1, 0, true⟩

def retryResult (fails : Nat → Bool) : RetryOutcome :=
  runRetries fails MAX_RETRIES 0

/-- The chat-message handler when the durable write exhausts its retries
and throws: the message was already pushed onto the cached session before
the awaited call, so the cache mutation stands, while the durable record is
unchanged and the statements after the await (the rebroadcast) never run. -/
def chatMessagePersistFail (st : ServerState) (sessionId : String)
    (m : ChatMsg) : ServerState :=
  match alookup st.activeSessionsInMemory sessionId with
  | none => st
  | some ss => writeCache st sessionId {ss with messages := ss.messages ++ [m]}


/-! ## Projection lemmas: durable-store and bookkeeping operations leave the
in-memory session cache untouched -/

theorem updateMongoPermissions_cache (st : ServerState) (sessionId : String)
    (perms : List (String × Bool)) :
    (updateMongoPermissions st sessionId perms).activeSessionsInMemory =
      st.activeSessionsInMemory := by
  unfold updateMongoPermissions
  cases alookup st.mongo sessionId <;> rfl

theorem updateMongoStrokes_cache (st : ServerState) (sessionId : String)
    (strokes : List Stroke) :
    (updateMongoStrokes st sessionId strokes).activeSessionsInMemory =
      st.activeSessionsInMemory := by
  unfold updateMongoStrokes
  cases alookup st.mongo sessionId <;> rfl

theorem updateMongoMessages_cache (st : ServerState) (sessionId : String)
    (msgs : List ChatMsg) :
    (updateMongoMessages st sessionId msgs).activeSessionsInMemory =
      st.activeSessionsInMemory := by
  unfold updateMongoMessages
  cases alookup st.mongo sessionId <;> rfl

theorem updateMongoOwner_cache (st : ServerState) (sessionId newOwner : String)
    (perms : List (String × Bool)) :
    (updateMongoOwner st sessionId newOwner perms).activeSessionsInMemory =
      st.activeSessionsInMemory := by
  unfold updateMongoOwner
  cases alookup st.mongo sessionId <;> rfl

theorem addParticipantToMongoSession_cache (st : ServerState)
    (sessionId userId : String) :
    (addParticipantToMongoSession st sessionId userId).activeSessionsInMemory =
      st.activeSessionsInMemory := by
  unfold addParticipantToMongoSession
  cases alookup st.mongo sessionId with
  | none => rfl
  | some doc =>
    by_cases h : userId ∈ doc.participants
    · simp [h]
    · simp [h]

theorem removeParticipantFromMongoSession_cache (st : ServerState)
    (sessionId userId : String) :
    (removeParticipantFromMongoSession st sessionId
      userId).activeSessionsInMemory = st.activeSessionsInMemory := by
  unfold removeParticipantFromMongoSession
  cases alookup st.mongo sessionId <;> rfl

theorem removePending_cache (st : ServerState) (sessionId userId : String) :
    (removePending st sessionId userId).activeSessionsInMemory =
      st.activeSessionsInMemory := by
  unfold removePending
  cases alookup st.pendingJoinRequests sessionId with
  | none => rfl
  | some m =>
    by_cases h : (aerase m userId).isEmpty
    · simp [h]
    · simp [h]

theorem foldl_roomLeave_cache (sessionId : String) (l : List String) :
    ∀ st : ServerState,
      (l.foldl (fun acc s => roomLeave acc sessionId s)
        st).activeSessionsInMemory = st.activeSessionsInMemory := by
  induction l with
  | nil => intro st; rfl
  | cons s l ih => intro st; rw [List.foldl_cons, ih]; rfl

/-! ## Concrete example states used by witnesses and counterexamples -/

/-- A cached public session owned by A with participants A and B, both
permitted to draw. -/
def exPub : SessState :=
  { name := "Pub"
    ownerId := "A"
    participants := ["A", "B"]
    messages := ["hello"]
    whiteboardStrokes := []
    drawingPermissions := [("A", true), ("B", true)]
    isPrivate := false
    sessionKey := none }

/-- The durable record backing exPub. -/
def exPubDoc : MongoSession :=
  { name := "Pub"
    host := "A"
    participants := ["A", "B"]
    drawingPermissions := [("A", true), ("B", true)]
    messages := ["hello"]
    whiteboardStrokes := []
    isPrivate := false
    sessionKey := none }

/-- A durable private session owned by A with key K. -/
def exPrivDoc : MongoSession :=
  { name := "P1"
    host := "A"
    participants := ["A", "B"]
    drawingPermissions := [("A", true), ("B", false)]
    messages := []
    whiteboardStrokes := []
    isPrivate := true
    sessionKey := some "K" }

/-- The hydrated in-memory counterpart of exPrivDoc. -/
def exPriv : SessState :=
  { name := "P1"
    ownerId := "A"
    participants := ["A", "B"]
    messages := []
    whiteboardStrokes := []
    drawingPermissions := [("A", true), ("B", false)]
    isPrivate := true
    sessionKey := some "K" }

/-- A small running server: A on socket cA and B on socket cB, both joined
to the public session pub; the private session s exists durably (and, for
the approve-handler examples, also in the cache) with a pending request
from C filed on socket cC. -/
def exState : ServerState :=
  { activeSessionsInMemory := [("pub", exPub), ("s", exPriv)]
    socketIdToSessionInfo :=
      [("cA", ⟨"A", "pub"⟩), ("cB", ⟨"B", "pub"⟩), ("cAs", ⟨"A", "s"⟩)]
    activeUserSockets := [("A", "cA"), ("B", "cB")]
    pendingJoinRequests := [("s", [("C", ⟨"Carol", "cC"⟩)])]
    connectedSockets := ["cA", "cB", "cC"]
    rooms := [("pub", ["cA", "cB"])]
    mongo := [("pub", exPubDoc), ("s", exPrivDoc)]
    deletionScheduled := [] }

/-! ## Claims -/

/-- C4: on a hydrated session a whiteboard-point batch is accepted if and
only if the author is the owner or has drawingPermissions true; a denied
batch produces no event at all and leaves the state unchanged, and an
accepted batch is forwarded verbatim as the single emission, targeted at
the session room excluding the sending socket. -/
theorem C4_whiteboard_point_gate
    (st : ServerState) (sock sessionId userId : String) (points : List Point)
    (color : String) (size : Nat) (tool : String)
    (shape textContent : Option String) (isEnd : Bool) (ss : SessState)
    (h : alookup st.activeSessionsInMemory sessionId = some ss) :
    (¬ (userId = ss.ownerId ∨
        alookup ss.drawingPermissions userId = some true) →
      whiteboardPoint st sock sessionId userId points color size tool shape
        textContent isEnd = (st, [])) ∧
    ((userId = ss.ownerId ∨ alookup ss.drawingPermissions userId = some true) →
      (whiteboardPoint st sock sessionId userId points color size tool shape
        textContent isEnd).2 =
      [⟨Target.roomExcept sessionId sock,
        SEvent.whiteboardPointEvt userId points color size tool shape
          textContent isEnd⟩]) := by
  constructor
  · intro hd
    push_neg at hd
    simp only [whiteboardPoint, h]
    rw [if_pos ⟨fun he => hd.1 he.symm, hd.2⟩]
  · intro ha
    have hcond : ¬ (ss.ownerId ≠ userId ∧
        alookup ss.drawingPermissions userId ≠ some true) := by
      rcases ha with ha | ha
      · exact fun hc => hc.1 ha.symm
      · exact fun hc => hc.2 ha
    simp only [whiteboardPoint, h]
    rw [if_neg hcond]
    cases isEnd <;> simp

/-- C4 witness: B is permitted in the cached public session, so a batch
from B is forwarded to the room excluding the sender, while a batch from an
unknown user D is dropped with no event. -/
theorem C4_witness :
    (¬ ("D" = exPub.ownerId ∨
        alookup exPub.drawingPermissions "D" = some true) →
      whiteboardPoint exState "cD" "pub" "D" [(1, 2)] "red" 3 "pen" none none
        false = (exState, [])) ∧
    (("B" = exPub.ownerId ∨ alookup exPub.drawingPermissions "B" = some true) →
      (whiteboardPoint exState "cB" "pub" "B" [(1, 2)] "red" 3 "pen" none none
        false).2 =
      [⟨Target.roomExcept "pub" "cB",
        SEvent.whiteboardPointEvt "B" [(1, 2)] "red" 3 "pen" none none
          false⟩]) :=
  ⟨(C4_whiteboard_point_gate exState "cD" "pub" "D" [(1, 2)] "red" 3 "pen"
      none none false exPub (by decide)).1,
   (C4_whiteboard_point_gate exState "cB" "pub" "B" [(1, 2)] "red" 3 "pen"
      none none false exPub (by decide)).2⟩

/-- C5 counterexample: B is not the owner of the cached session pub, yet
kick-participant from B produces no kick-failed event (no event at all) —
refuting the claim that the non-owner requester receives an explicit
PermissionDenied failure event — while the state is left unchanged. -/
theorem C5_nonowner_kick_counterexample :
    kickParticipant exState "cB" "pub" "A" = (exState, []) := by decide

/-- C5 (amended): a kick-participant request whose requester is not the
session owner (or whose session is not cached) is silently dropped: the
handler returns the state unchanged and emits nothing, to the requester or
anyone else; kick-failed exists only for the owner-self-kick and
target-not-found cases. -/
theorem C5_nonowner_kick_silent_amended
    (st : ServerState) (sock sessionId targetUserId : String)
    (h : ∀ ss, alookup st.activeSessionsInMemory sessionId = some ss →
      (alookup st.socketIdToSessionInfo sock).map SockInfo.userId ≠
        some ss.ownerId) :
    kickParticipant st sock sessionId targetUserId = (st, []) := by
  cases hc : alookup st.activeSessionsInMemory sessionId with
  | none => simp only [kickParticipant, hc]
  | some ss =>
    simp only [kickParticipant, hc]
    rw [if_pos (h ss hc)]

/-- C5 witness: the amended theorem applied to the concrete non-owner kick. -/
theorem C5_amended_witness :
    kickParticipant exState "cB" "pub" "A" = (exState, []) :=
  C5_nonowner_kick_silent_amended exState "cB" "pub" "A"
    (by
      intro ss hss
      have h2 : alookup exState.activeSessionsInMemory "pub" = some exPub := by
        decide
      rw [h2] at hss
      rw [← Option.some.inj hss]
      decide)

/-- C10: a chat-message naming a cached session is appended to that
session's message log, the new log is persisted to the durable record, and
the message is rebroadcast to the session room excluding the sending
socket.  The theorem holds for every sending socket and every server state
with the session cached: the handler never inspects the sending user, so no
participant or permission check restricts it. -/
theorem C10_chat_no_participant_check
    (st : ServerState) (sock sessionId : String) (m : ChatMsg) (ss : SessState)
    (h : alookup st.activeSessionsInMemory sessionId = some ss) :
    chatMessage st sock sessionId m =
      (updateMongoMessages
        (writeCache st sessionId {ss with messages := ss.messages ++ [m]})
        sessionId (ss.messages ++ [m]),
       [⟨Target.roomExcept sessionId sock, SEvent.chatMessageEvt m⟩]) := by
  simp only [chatMessage, h]

/-- C10 witness: a chat message from an arbitrary socket cZ — one that is
not even bound to the session — is appended, persisted and rebroadcast. -/
theorem C10_witness :
    chatMessage exState "cZ" "pub" "yo" =
      (updateMongoMessages
        (writeCache exState "pub" {exPub with messages := exPub.messages ++ ["yo"]})
        "pub" (exPub.messages ++ ["yo"]),
       [⟨Target.roomExcept "pub" "cZ", SEvent.chatMessageEvt "yo"⟩]) :=
  C10_chat_no_participant_check exState "cZ" "pub" "yo" exPub (by decide)

/-- C8: every durable mutation runs through the shared retry loop: at most
MAX_RETRIES (3) attempts separated by RETRY_DELAY (1000 ms) sleeps; when
all three attempts fail the loop ends in failure after exactly 3 attempts
and 2 inter-attempt delays, surfacing the error; and the in-memory cache
mutation the handler applied before the durable call stands even when the
durable write fails (shown for the chat handler: its cache effect is the
same whether the persistence call succeeds or throws, and on a throw the
durable record is untouched). -/
theorem C8_retry_bound_cache_authoritative :
    MAX_RETRIES = 3 ∧ RETRY_DELAY = 1000 ∧
    (∀ fails : Nat → Bool, (retryResult fails).attempts ≤ MAX_RETRIES) ∧
    (∀ fails : Nat → Bool, fails 0 = true → fails 1 = true → fails 2 = true →
      retryResult fails = ⟨3, 2, false⟩) ∧
    (∀ (st : ServerState) (sock sessionId : String) (m : ChatMsg),
      (chatMessagePersistFail st sessionId m).activeSessionsInMemory =
        (chatMessage st sock sessionId m).1.activeSessionsInMemory ∧
      (chatMessagePersistFail st sessionId m).mongo = st.mongo) := by
  refine ⟨rfl, rfl, ?_, ?_, ?_⟩
  · intro fails
    unfold retryResult
    cases h0 : fails 0 <;> cases h1 : fails 1 <;> cases h2 : fails 2 <;>
      simp [runRetries, h0, h1, h2, MAX_RETRIES]
  · intro fails h0 h1 h2
    unfold retryResult
    simp [runRetries, h0, h1, h2, MAX_RETRIES]
  · intro st sock sessionId m
    constructor
    · unfold chatMessagePersistFail chatMessage
      cases h : alookup st.activeSessionsInMemory sessionId with
      | none => rfl
      | some ss => simp [updateMongoMessages_cache]
    · unfold chatMessagePersistFail
      cases h : alookup st.activeSessionsInMemory sessionId with
      | none => rfl
      | some ss => rfl

/-- C8 witness: with every attempt failing, the loop makes exactly 3
attempts and 2 delays and surfaces failure; and the concrete chat handler
keeps its cache mutation when persistence fails. -/
theorem C8_witness :
    retryResult (fun _ => true) = ⟨3, 2, false⟩ ∧
    (chatMessagePersistFail exState "pub" "yo").activeSessionsInMemory =
      (chatMessage exState "cB" "pub" "yo").1.activeSessionsInMemory :=
  ⟨C8_retry_bound_cache_authoritative.2.2.2.1 (fun _ => true) rfl rfl rfl,
   (C8_retry_bound_cache_authoritative.2.2.2.2 exState "cB" "pub" "yo").1⟩


/-- C2 counterexample: joining a session that does not exist (with no name
supplied for auto-creation) is answered with a session-not-found event,
while the same join against an existing private session with a wrong key is
answered with the invalid-key join-failed event — the two failures are
distinguishable, so a failed join does reveal whether the session exists,
refuting the claim that the failure is identical in both cases. -/
theorem C2_error_differentiation_counterexample :
    (joinSession exState "cB" "nosuch" "B" "Bob" none none (some "guess")).2 =
      [emitTo "cB" (SEvent.sessionNotFound "nosuch")] ∧
    (joinSession exState "cB" "s" "B" "Bob" none none (some "guess")).2 =
      [emitTo "cB" (SEvent.joinFailed privateKeyMsg)] ∧
    SEvent.sessionNotFound "nosuch" ≠ SEvent.joinFailed privateKeyMsg := by
  decide

/-- C2 (amended): a wrong or missing key against an existing private
session always yields the one invalid-key join-failed event, whatever the
key; but when the named session does not exist and no session name is
supplied, the server instead emits a distinct session-not-found event,
revealing the session's nonexistence through error differentiation. -/
theorem C2_join_failure_events_amended
    (st : ServerState) (sock sessionId userId username : String)
    (isPrivate : Option Bool) (sessionKey : Option String) :
    (∀ (sessionName : Option String) (doc : MongoSession),
      alookup st.mongo sessionId = some doc →
      doc.isPrivate = true →
      keyInvalid sessionKey doc.sessionKey = true →
      (joinSession st sock sessionId userId username sessionName isPrivate
        sessionKey).2 = [emitTo sock (SEvent.joinFailed privateKeyMsg)]) ∧
    (alookup st.mongo sessionId = none →
      (joinSession st sock sessionId userId username none isPrivate
        sessionKey).2 = [emitTo sock (SEvent.sessionNotFound sessionId)]) := by
  constructor
  · intro sessionName doc hdoc hpriv hkey
    simp only [joinSession, hdoc, joinPhase2, hpriv, hkey, if_true]
  · intro hnone
    simp [joinSession, hnone, jsStrTruthy]

/-- C2 witness: the amended theorem applied to a wrong-key join against the
existing private session s and to a join of the absent session ghost. -/
theorem C2_amended_witness :
    (joinSession exState "cZ" "s" "D" "Dana" none none (some "bad")).2 =
      [emitTo "cZ" (SEvent.joinFailed privateKeyMsg)] ∧
    (joinSession exState "cZ" "ghost" "D" "Dana" none none (some "bad")).2 =
      [emitTo "cZ" (SEvent.sessionNotFound "ghost")] :=
  ⟨(C2_join_failure_events_amended exState "cZ" "s" "D" "Dana" none
      (some "bad")).1 none exPrivDoc (by decide) (by decide) (by decide),
   (C2_join_failure_events_amended exState "cZ" "ghost" "D" "Dana" none
      (some "bad")).2 (by decide)⟩

/-- C3 counterexample: B is already a participant of the private session s
(both durably and in the cache) and supplies the correct key, yet the join
does not proceed directly: a pending request for B is enqueued, the owner
is notified, and B receives an awaiting-approval status instead of a
snapshot — refuting the claim that an existing participant with the
correct key joins directly. -/
theorem C3_member_direct_join_counterexample :
    (joinSession exState "cB" "s" "B" "Bob" none none (some "K")).2 =
      [emitTo "cA" (SEvent.newJoinRequest "s" "B" "Bob" "cB"),
       emitTo "cB" (SEvent.joinAwaitingApproval "s" "P1")] ∧
    (alookup (joinSession exState "cB" "s" "B" "Bob" none none
        (some "K")).1.pendingJoinRequests "s").bind
      (fun m => alookup m "B") = some ⟨"Bob", "cB"⟩ := by
  decide

/-- C3 (amended): every join to a private session with a correct key —
including a join by a user who is already a participant, or by the owner —
goes through the approval queue: a pending request is filed and the joiner
gets an awaiting-approval status when the owner has a live channel, and the
join fails with the owner-offline event when not; the join never proceeds
directly to the room and snapshot. -/
theorem C3_private_join_always_queued_amended
    (st : ServerState) (sock sessionId userId username : String)
    (sessionName : Option String) (isPrivate : Option Bool)
    (sessionKey : Option String) (doc : MongoSession)
    (hdoc : alookup st.mongo sessionId = some doc)
    (hpriv : doc.isPrivate = true)
    (hkey : keyInvalid sessionKey doc.sessionKey = false) :
    (∀ ownerSock, alookup st.activeUserSockets doc.host = some ownerSock →
      (joinSession st sock sessionId userId username sessionName isPrivate
        sessionKey).2 =
        [emitTo ownerSock (SEvent.newJoinRequest sessionId userId username sock),
         emitTo sock (SEvent.joinAwaitingApproval sessionId doc.name)] ∧
      (alookup (joinSession st sock sessionId userId username sessionName
          isPrivate sessionKey).1.pendingJoinRequests sessionId).bind
        (fun m => alookup m userId) = some ⟨username, sock⟩) ∧
    (alookup st.activeUserSockets doc.host = none →
      (joinSession st sock sessionId userId username sessionName isPrivate
        sessionKey).2 = [emitTo sock (SEvent.joinFailed ownerOfflineMsg)]) := by
  constructor
  · intro ownerSock hown
    simp [joinSession, hdoc, joinPhase2, hpriv, hkey, addPending, hown,
      alookup_aset_self]
  · intro hoff
    simp [joinSession, hdoc, joinPhase2, hpriv, hkey, addPending, hoff]

/-- C3 witness: the amended theorem applied to the already-a-participant
join of the counterexample, with the owner online on socket cA. -/
theorem C3_amended_witness :
    (joinSession exState "cB" "s" "B" "Bob" none none (some "K")).2 =
      [emitTo "cA" (SEvent.newJoinRequest "s" "B" "Bob" "cB"),
       emitTo "cB" (SEvent.joinAwaitingApproval "s" "P1")] ∧
    (alookup (joinSession exState "cB" "s" "B" "Bob" none none
        (some "K")).1.pendingJoinRequests "s").bind
      (fun m => alookup m "B") = some ⟨"Bob", "cB"⟩ :=
  (C3_private_join_always_queued_amended exState "cB" "s" "B" "Bob" none none
    (some "K") exPrivDoc (by decide) (by decide) (by decide)).1 "cA" (by decide)


/-! ## Owner-bit invariant (claim C1) -/

theorem writeCache_cache (st : ServerState) (sessionId : String)
    (ss : SessState) :
    (writeCache st sessionId ss).activeSessionsInMemory =
      aset st.activeSessionsInMemory sessionId ss := rfl

theorem roomLeave_cache (st : ServerState) (sessionId sock : String) :
    (roomLeave st sessionId sock).activeSessionsInMemory =
      st.activeSessionsInMemory := rfl

theorem roomJoin_cache (st : ServerState) (sessionId sock : String) :
    (roomJoin st sessionId sock).activeSessionsInMemory =
      st.activeSessionsInMemory := rfl

theorem scheduleDeletion_cache (st : ServerState) (sessionId : String) :
    (scheduleDeletion st sessionId).activeSessionsInMemory =
      st.activeSessionsInMemory := rfl

theorem cancelDeletion_cache (st : ServerState) (sessionId : String) :
    (cancelDeletion st sessionId).activeSessionsInMemory =
      st.activeSessionsInMemory := rfl

/-- The cached-session owner-bit invariant of the specification: every
session present in the in-memory cache has the owner's drawing-permission
bit set to true. -/
abbrev OwnerBitInv (st : ServerState) : Prop :=
  ∀ p ∈ st.activeSessionsInMemory,
    alookup p.2.drawingPermissions p.2.ownerId = some true

/-- The owner-affecting operations named by the claim: permission changes
and the two participant-removal commands that can reassign ownership. -/
inductive PermOp where
  | setPerm (sock sessionId targetUserId : String) (hasPermission : Bool)
  | grantAll (sock sessionId : String)
  | revokeAll (sock sessionId : String)
  | kick (sock sessionId targetUserId : String)
  | leave (sock sessionId userId : String)

def applyPermOp (st : ServerState) : PermOp → ServerState × List Emit
  | .setPerm sock sessionId targetUserId v =>
      setDrawingPermission st sock sessionId targetUserId v
  | .grantAll sock sessionId => grantAllDrawingPermissions st sock sessionId
  | .revokeAll sock sessionId => revokeAllDrawingPermissions st sock sessionId
  | .kick sock sessionId targetUserId =>
      kickParticipant st sock sessionId targetUserId
  | .leave sock sessionId userId => userLeaveSession st sock sessionId userId

theorem revoke_foldl_owner (owner : String) :
    ∀ (ps : List String) (m : List (String × Bool)),
      alookup m owner = some true →
      alookup (ps.foldl (fun m p => if p = owner then m else aset m p false) m)
        owner = some true := by
  intro ps
  induction ps with
  | nil => intro m h; exact h
  | cons p ps ih =>
    intro m h
    rw [List.foldl_cons]
    by_cases hp : p = owner
    · rw [if_pos hp]; exact ih m h
    · rw [if_neg hp]
      refine ih _ ?_
      rw [alookup_aset_ne _ _ _ _ (fun he => hp he.symm)]
      exact h

theorem ownerBit_setDrawingPermission
    (st : ServerState) (sock sessionId targetUserId : String) (v : Bool)
    (hinv : OwnerBitInv st)
    (hexc : ∀ ss, alookup st.activeSessionsInMemory sessionId = some ss →
      v = false → targetUserId ≠ ss.ownerId) :
    OwnerBitInv (setDrawingPermission st sock sessionId targetUserId v).1 := by
  unfold setDrawingPermission
  cases hc : alookup st.activeSessionsInMemory sessionId with
  | none => exact hinv
  | some ss =>
    dsimp only
    by_cases hreq : (alookup st.socketIdToSessionInfo sock).map
        SockInfo.userId ≠ some ss.ownerId
    · rw [if_pos hreq]; exact hinv
    · rw [if_neg hreq]
      intro p hp
      rw [updateMongoPermissions_cache, writeCache_cache] at hp
      rcases mem_aset hp with hpe | hpm
      · subst hpe
        show alookup (aset ss.drawingPermissions targetUserId v) ss.ownerId =
          some true
        by_cases ht : targetUserId = ss.ownerId
        · cases v with
          | false => exact absurd ht (hexc ss hc rfl)
          | true => rw [← ht]; exact alookup_aset_self _ _ _
        · rw [alookup_aset_ne _ _ _ _ (fun he => ht he.symm)]
          exact hinv (sessionId, ss) (alookup_some_mem hc)
      · exact hinv p hpm

theorem ownerBit_grantAll (st : ServerState) (sock sessionId : String)
    (hinv : OwnerBitInv st) :
    OwnerBitInv (grantAllDrawingPermissions st sock sessionId).1 := by
  unfold grantAllDrawingPermissions
  cases hc : alookup st.activeSessionsInMemory sessionId with
  | none => exact hinv
  | some ss =>
    dsimp only
    by_cases hreq : (alookup st.socketIdToSessionInfo sock).map
        SockInfo.userId ≠ some ss.ownerId
    · rw [if_pos hreq]; exact hinv
    · rw [if_neg hreq]
      intro p hp
      rw [updateMongoPermissions_cache, writeCache_cache] at hp
      rcases mem_aset hp with hpe | hpm
      · subst hpe
        exact alookup_aset_self _ _ _
      · exact hinv p hpm

theorem ownerBit_revokeAll (st : ServerState) (sock sessionId : String)
    (hinv : OwnerBitInv st) :
    OwnerBitInv (revokeAllDrawingPermissions st sock sessionId).1 := by
  unfold revokeAllDrawingPermissions
  cases hc : alookup st.activeSessionsInMemory sessionId with
  | none => exact hinv
  | some ss =>
    dsimp only
    by_cases hreq : (alookup st.socketIdToSessionInfo sock).map
        SockInfo.userId ≠ some ss.ownerId
    · rw [if_pos hreq]; exact hinv
    · rw [if_neg hreq]
      intro p hp
      rw [updateMongoPermissions_cache, writeCache_cache] at hp
      rcases mem_aset hp with hpe | hpm
      · subst hpe
        exact revoke_foldl_owner ss.ownerId ss.participants _
          (alookup_aset_self _ _ _)
      · exact hinv p hpm


theorem ownerBit_kick (st : ServerState) (sock sessionId targetUserId : String)
    (hinv : OwnerBitInv st) :
    OwnerBitInv (kickParticipant st sock sessionId targetUserId).1 := by
  unfold kickParticipant
  cases hc : alookup st.activeSessionsInMemory sessionId with
  | none => exact hinv
  | some ss =>
    dsimp only
    by_cases hreq : (alookup st.socketIdToSessionInfo sock).map
        SockInfo.userId ≠ some ss.ownerId
    · rw [if_pos hreq]; exact hinv
    · rw [if_neg hreq]
      by_cases htgt : targetUserId = ss.ownerId
      · rw [if_pos htgt]; exact hinv
      · rw [if_neg htgt]
        by_cases hmem : targetUserId ∈ ss.participants
        · rw [if_pos hmem]
          have hro : decide (ss.ownerId = targetUserId) = false :=
            decide_eq_false (fun h => htgt h.symm)
          simp only [hro, Bool.false_and, Bool.false_eq_true, if_false]
          intro p hp
          simp only [apply_ite ServerState.activeSessionsInMemory,
            scheduleDeletion_cache, cancelDeletion_cache, ite_self,
            writeCache_cache, foldl_roomLeave_cache,
            removeParticipantFromMongoSession_cache] at hp
          rcases mem_aset hp with hpe | hpm
          · subst hpe
            exact hinv (sessionId, ss) (alookup_some_mem hc)
          · exact hinv p hpm
        · rw [if_neg hmem]; exact hinv

theorem ownerBit_leave (st : ServerState) (sock sessionId userId : String)
    (hinv : OwnerBitInv st) :
    OwnerBitInv (userLeaveSession st sock sessionId userId).1 := by
  unfold userLeaveSession
  cases hc : alookup st.activeSessionsInMemory sessionId with
  | none => exact hinv
  | some ss =>
    dsimp only
    by_cases hmem : userId ∈ ss.participants
    · rw [if_pos hmem]
      cases hre : (decide (ss.ownerId = userId) &&
          decide (0 < (sdel ss.participants userId).length)) with
      | false =>
        simp only [Bool.false_eq_true, if_false]
        intro p hp
        simp only [roomLeave_cache,
          apply_ite ServerState.activeSessionsInMemory,
          scheduleDeletion_cache, cancelDeletion_cache, ite_self,
          writeCache_cache, removeParticipantFromMongoSession_cache,
          removePending_cache] at hp
        rcases mem_aset hp with hpe | hpm
        · subst hpe
          exact hinv (sessionId, ss) (alookup_some_mem hc)
        · exact hinv p hpm
      | true =>
        simp only [if_pos rfl]
        intro p hp
        simp only [roomLeave_cache,
          apply_ite ServerState.activeSessionsInMemory,
          scheduleDeletion_cache, cancelDeletion_cache, ite_self,
          writeCache_cache, updateMongoOwner_cache,
          removeParticipantFromMongoSession_cache, removePending_cache] at hp
        rcases mem_aset hp with hpe | hpm
        · subst hpe
          exact alookup_aset_self _ _ _
        · exact hinv p hpm
    · rw [if_neg hmem]
      intro p hp
      simp only [roomLeave_cache, removePending_cache] at hp
      exact hinv p hp

/-- C1 counterexample: the concrete running server satisfies the owner-bit
invariant, yet one set-drawing-permission call from the owner A naming A
itself as target with hasPermission false leaves the cache with the pub
session owner bit false — refuting the claim that
drawingPermissions[ownerId] stays true even when the owner is the target of
a permission change. -/
theorem C1_owner_bit_not_pinned_counterexample :
    OwnerBitInv exState ∧
    ¬ OwnerBitInv (applyPermOp exState
        (PermOp.setPerm "cA" "pub" "A" false)).1 ∧
    (alookup (applyPermOp exState
        (PermOp.setPerm "cA" "pub" "A" false)).1.activeSessionsInMemory
      "pub").map (fun ss => alookup ss.drawingPermissions ss.ownerId) =
      some (some false) := by
  refine ⟨by decide, by decide, by decide⟩

/-- C1 (amended): the owner-bit invariant is preserved by
grant-all-drawing-permissions, revoke-all-drawing-permissions,
kick-participant, and user-leave-session (including the ownership
reassignments they perform, which pin the replacement owner bit to true),
and by set-drawing-permission except in the one case the counterexample
exhibits: a set-drawing-permission whose target is the session owner with
hasPermission false overwrites the owner bit with false. -/
theorem C1_owner_bit_preserved_amended (st : ServerState) (op : PermOp)
    (hinv : OwnerBitInv st)
    (hexc : ∀ sock sessionId targetUserId ss,
      op = PermOp.setPerm sock sessionId targetUserId false →
      alookup st.activeSessionsInMemory sessionId = some ss →
      targetUserId ≠ ss.ownerId) :
    OwnerBitInv (applyPermOp st op).1 := by
  cases op with
  | setPerm sock sessionId targetUserId v =>
    refine ownerBit_setDrawingPermission st sock sessionId targetUserId v hinv
      (fun ss hss hv => ?_)
    subst hv
    exact hexc sock sessionId targetUserId ss rfl hss
  | grantAll sock sessionId => exact ownerBit_grantAll st sock sessionId hinv
  | revokeAll sock sessionId => exact ownerBit_revokeAll st sock sessionId hinv
  | kick sock sessionId targetUserId =>
    exact ownerBit_kick st sock sessionId targetUserId hinv
  | leave sock sessionId userId =>
    exact ownerBit_leave st sock sessionId userId hinv

/-- C1 witness: the amended theorem applied to a concrete revoke-all from
the owner, after which the owner bit is still true. -/
theorem C1_amended_witness :
    OwnerBitInv (applyPermOp exState (PermOp.revokeAll "cA" "pub")).1 :=
  C1_owner_bit_preserved_amended exState (PermOp.revokeAll "cA" "pub")
    (by decide) (fun _ _ _ _ h _ => nomatch h)


/-! ## Approve-handler lemmas and claim C6 -/

theorem removePending_connected (st : ServerState) (sessionId userId : String) :
    (removePending st sessionId userId).connectedSockets =
      st.connectedSockets := by
  unfold removePending
  cases alookup st.pendingJoinRequests sessionId with
  | none => rfl
  | some m =>
    by_cases h : (aerase m userId).isEmpty
    · simp [h]
    · simp [h]

theorem removePending_lookup (st : ServerState) (sessionId userId : String) :
    (alookup (removePending st sessionId userId).pendingJoinRequests
      sessionId).bind (fun m => alookup m userId) = none := by
  unfold removePending
  cases hm : alookup st.pendingJoinRequests sessionId with
  | none =>
    dsimp only
    rw [hm]
    rfl
  | some m =>
    dsimp only
    by_cases h : ((aerase m userId).isEmpty = true)
    · rw [if_pos h]
      show (alookup (aerase st.pendingJoinRequests sessionId)
        sessionId).bind (fun m => alookup m userId) = none
      rw [alookup_aerase, if_pos rfl]
      rfl
    · rw [if_neg h]
      show (alookup (aset st.pendingJoinRequests sessionId (aerase m userId))
        sessionId).bind (fun m => alookup m userId) = none
      rw [alookup_aset_self]
      show alookup (aerase m userId) userId = none
      rw [alookup_aerase, if_pos rfl]

theorem removePending_cacheEq (st : ServerState) (sessionId userId : String) :
    (removePending st sessionId userId).activeSessionsInMemory =
      st.activeSessionsInMemory := removePending_cache st sessionId userId

theorem writeCache_pending (st : ServerState) (sessionId : String)
    (ss : SessState) :
    (writeCache st sessionId ss).pendingJoinRequests =
      st.pendingJoinRequests := rfl

theorem roomJoin_pending (st : ServerState) (sessionId sock : String) :
    (roomJoin st sessionId sock).pendingJoinRequests =
      st.pendingJoinRequests := rfl

theorem updateMongoPermissions_pending (st : ServerState) (sessionId : String)
    (perms : List (String × Bool)) :
    (updateMongoPermissions st sessionId perms).pendingJoinRequests =
      st.pendingJoinRequests := by
  unfold updateMongoPermissions
  cases alookup st.mongo sessionId <;> rfl

theorem addParticipantToMongoSession_pending (st : ServerState)
    (sessionId userId : String) :
    (addParticipantToMongoSession st sessionId userId).pendingJoinRequests =
      st.pendingJoinRequests := by
  unfold addParticipantToMongoSession
  cases alookup st.mongo sessionId with
  | none => rfl
  | some doc =>
    by_cases h : userId ∈ doc.participants
    · simp [h]
    · simp [h]

theorem mem_sadd_self (l : List String) (x : String) : x ∈ sadd l x := by
  by_cases h : x ∈ l
  · rw [sadd_of_mem h]; exact h
  · rw [sadd_of_not_mem h]; exact List.mem_append_right l (List.mem_cons_self x [])

theorem roomJoin_mem (st : ServerState) (sessionId sock : String) :
    sock ∈ (alookup (roomJoin st sessionId sock).rooms sessionId).getD [] := by
  unfold roomJoin
  dsimp only
  rw [alookup_aset_self]
  exact mem_sadd_self _ _

/-- The running server of the C6 scenario: the private session s is
hydrated, the owner A is on socket cAs, and requester C filed a pending
request from socket cC but has since reconnected: the live socket is cC2
(registered in activeUserSockets), while the stored channel ref cC is no
longer connected. -/
def exStateC6 : ServerState :=
  { activeSessionsInMemory := [("s", exPriv)]
    socketIdToSessionInfo := [("cAs", ⟨"A", "s"⟩), ("cC2", ⟨"C", "s"⟩)]
    activeUserSockets := [("A", "cAs"), ("C", "cC2")]
    pendingJoinRequests := [("s", [("C", ⟨"Carol", "cC"⟩)])]
    connectedSockets := ["cAs", "cC2"]
    rooms := [("s", ["cAs"])]
    mongo := [("s", exPrivDoc)]
    deletionScheduled := [] }

/-- C6 counterexample: the owner approves C passing the channel ref
captured when the request was filed (cC); C has since reconnected and has a
live current channel cC2, resolvable through the user-socket registry, yet
the approval does not re-resolve it: the handler aborts with no events and
no participant change, after the pending entry has already been removed —
refuting the claim that the requester's current channel is re-resolved,
tolerating a reconnect. -/
theorem C6_stale_channel_counterexample :
    alookup exStateC6.activeUserSockets "C" = some "cC2" ∧
    "cC2" ∈ exStateC6.connectedSockets ∧
    (approveJoinRequest exStateC6 "cAs" "s" "C" "cC").2 = [] ∧
    (approveJoinRequest exStateC6 "cAs" "s" "C"
      "cC").1.activeSessionsInMemory = exStateC6.activeSessionsInMemory ∧
    (alookup (approveJoinRequest exStateC6 "cAs" "s" "C"
      "cC").1.pendingJoinRequests "s").bind (fun m => alookup m "C") =
      none := by
  refine ⟨by decide, by decide, by decide, by decide, by decide⟩

/-- C6 (amended): an owner-issued approve with a matching pending request
resolves the requester's channel by the requesterSocketId argument alone
(the socket id captured when the request was filed), never re-resolving the
requester's current channel.  When that exact socket is still connected,
the approval performs the claimed effects: pending entry removed, requester
added as participant, default permission false set when unset for a
non-owner, the passed socket joined to the room and sent a snapshot plus
the approval acknowledgment, followed by the user-joined broadcast.  When
it is not, the approval aborts with no events and no participant change —
but only after the pending entry has already been removed, so a reconnect
since the request was filed is not tolerated. -/
theorem C6_approve_uses_passed_ref_amended
    (st : ServerState) (sock sessionId requesterId requesterSocketId : String)
    (ss : SessState) (info : PendingInfo)
    (hc : alookup st.activeSessionsInMemory sessionId = some ss)
    (hreq : (alookup st.socketIdToSessionInfo sock).map SockInfo.userId =
      some ss.ownerId)
    (hpend : (alookup st.pendingJoinRequests sessionId).bind
      (fun m => alookup m requesterId) = some info) :
    (requesterSocketId ∉ st.connectedSockets →
      approveJoinRequest st sock sessionId requesterId requesterSocketId =
        (removePending st sessionId requesterId, []) ∧
      (alookup (removePending st sessionId
          requesterId).pendingJoinRequests sessionId).bind
        (fun m => alookup m requesterId) = none ∧
      (removePending st sessionId requesterId).activeSessionsInMemory =
        st.activeSessionsInMemory) ∧
    (requesterSocketId ∈ st.connectedSockets →
      requesterId ∉ ss.participants →
      alookup ss.drawingPermissions requesterId = none →
      requesterId ≠ ss.ownerId →
      (approveJoinRequest st sock sessionId requesterId requesterSocketId).2 =
        [emitTo requesterSocketId (SEvent.sessionStateEvt (mkSnapshot
           {ss with participants := ss.participants ++ [requesterId],
                    drawingPermissions :=
                      aset ss.drawingPermissions requesterId false})),
         emitTo requesterSocketId (SEvent.joinApproved sessionId ss.name),
         ⟨Target.room sessionId, SEvent.userJoined requesterId info.username
            (ss.participants ++ [requesterId]).length⟩] ∧
      alookup (approveJoinRequest st sock sessionId requesterId
          requesterSocketId).1.activeSessionsInMemory sessionId =
        some {ss with participants := ss.participants ++ [requesterId],
                      drawingPermissions :=
                        aset ss.drawingPermissions requesterId false} ∧
      (alookup (approveJoinRequest st sock sessionId requesterId
          requesterSocketId).1.pendingJoinRequests sessionId).bind
        (fun m => alookup m requesterId) = none ∧
      requesterSocketId ∈ (alookup (approveJoinRequest st sock sessionId
          requesterId requesterSocketId).1.rooms sessionId).getD []) := by
  have hreqneg : ¬ ((alookup st.socketIdToSessionInfo sock).map
      SockInfo.userId ≠ some ss.ownerId) := fun hne => hne hreq
  constructor
  · intro hstale
    have hnotin : ¬ (requesterSocketId ∈
        (removePending st sessionId requesterId).connectedSockets) := by
      rw [removePending_connected]; exact hstale
    refine ⟨?_, removePending_lookup st sessionId requesterId,
      removePending_cache st sessionId requesterId⟩
    simp only [approveJoinRequest, hc, hpend]
    rw [if_neg hreqneg, if_neg hnotin]
  · intro hconn hnm hperm hno
    have hconn' : requesterSocketId ∈
        (removePending st sessionId requesterId).connectedSockets := by
      rw [removePending_connected]; exact hconn
    have hmemd : decide (requesterId ∈ ss.participants) = false :=
      decide_eq_false hnm
    have hnod : decide (requesterId = ss.ownerId) = false :=
      decide_eq_false hno
    have hpermd : decide (alookup ss.drawingPermissions requesterId = none)
        = true := decide_eq_true hperm
    simp only [approveJoinRequest, hc, hpend]
    rw [if_neg hreqneg, if_pos hconn']
    simp only [hmemd, Bool.false_eq_true, if_false, hpermd, if_true,
      sadd_of_not_mem hnm, hnod]
    refine ⟨by trivial, ?_, ?_, ?_⟩
    · rw [roomJoin_cache, writeCache_cache, alookup_aset_self]
    · rw [roomJoin_pending, writeCache_pending, updateMongoPermissions_pending,
        addParticipantToMongoSession_pending]
      exact removePending_lookup st sessionId requesterId
    · exact roomJoin_mem _ _ _

/-- C6 witness: the amended theorem applied at the C6 scenario twice — once
with the stale stored ref cC (approval aborts after the pending entry is
gone) and once with a still-connected passed ref cC2 (the full approval
effects). -/
theorem C6_amended_witness :
    (approveJoinRequest exStateC6 "cAs" "s" "C" "cC" =
      (removePending exStateC6 "s" "C", []) ∧
     (alookup (removePending exStateC6 "s" "C").pendingJoinRequests "s").bind
       (fun m => alookup m "C") = none ∧
     (removePending exStateC6 "s" "C").activeSessionsInMemory =
       exStateC6.activeSessionsInMemory) ∧
    (approveJoinRequest exStateC6 "cAs" "s" "C" "cC2").2 =
      [emitTo "cC2" (SEvent.sessionStateEvt (mkSnapshot
         {exPriv with participants := exPriv.participants ++ ["C"],
                      drawingPermissions :=
                        aset exPriv.drawingPermissions "C" false})),
       emitTo "cC2" (SEvent.joinApproved "s" exPriv.name),
       ⟨Target.room "s", SEvent.userJoined "C" "Carol"
          (exPriv.participants ++ ["C"]).length⟩] :=
  ⟨(C6_approve_uses_passed_ref_amended exStateC6 "cAs" "s" "C" "cC" exPriv
      ⟨"Carol", "cC"⟩ (by decide) (by decide) (by decide)).1 (by decide),
   ((C6_approve_uses_passed_ref_amended exStateC6 "cAs" "s" "C" "cC2" exPriv
      ⟨"Carol", "cC"⟩ (by decide) (by decide) (by decide)).2 (by decide)
      (by decide) (by decide) (by decide)).1⟩


/-! ## Snapshot lemmas and claim C7 -/

theorem publicJoin_snapshot_strokes
    (st : ServerState) (sock sessionId userId username : String)
    (doc : MongoSession) (ss : SessState)
    (hc : alookup st.activeSessionsInMemory sessionId = some ss) :
    ∀ (tgt : Target) (snap : Snapshot),
      Emit.mk tgt (SEvent.sessionStateEvt snap) ∈
        (publicJoin st sock sessionId userId username doc).2 →
      snap.whiteboardStrokes = ss.whiteboardStrokes := by
  intro tgt snap hmem
  simp only [publicJoin, hc, emitTo, List.mem_cons] at hmem
  rcases hmem with hmem | hmem
  · injection hmem with ht hev
    injection hev with hsnap
    subst hsnap
    simp only [mkSnapshot]
    split
    · split <;> rfl
    · split <;> rfl
  · revert hmem
    split
    · intro hmem
      exact absurd hmem (List.not_mem_nil _)
    · intro hmem
      rcases List.mem_cons.mp hmem with h | h
      · exact absurd (congrArg Emit.event h) (by simp)
      · exact absurd h (List.not_mem_nil _)

theorem joinPhase2_snapshot_strokes
    (st : ServerState) (sock sessionId userId username : String)
    (sessionKey : Option String) (doc : MongoSession) (ss : SessState)
    (hc : alookup st.activeSessionsInMemory sessionId = some ss) :
    ∀ (tgt : Target) (snap : Snapshot),
      Emit.mk tgt (SEvent.sessionStateEvt snap) ∈
        (joinPhase2 st sock sessionId userId username sessionKey doc).2 →
      snap.whiteboardStrokes = ss.whiteboardStrokes := by
  intro tgt snap hmem
  unfold joinPhase2 at hmem
  by_cases hp : doc.isPrivate = true
  · rw [if_pos hp] at hmem
    revert hmem
    split
    · intro hmem
      rcases List.mem_cons.mp hmem with h | h
      · exact absurd (congrArg Emit.event h) (by simp [emitTo])
      · exact absurd h (List.not_mem_nil _)
    · dsimp only
      split
      · intro hmem
        rcases List.mem_cons.mp hmem with h | h
        · exact absurd (congrArg Emit.event h) (by simp [emitTo])
        · rcases List.mem_cons.mp h with h2 | h2
          · exact absurd (congrArg Emit.event h2) (by simp [emitTo])
          · exact absurd h2 (List.not_mem_nil _)
      · intro hmem
        rcases List.mem_cons.mp hmem with h | h
        · exact absurd (congrArg Emit.event h) (by simp [emitTo])
        · exact absurd h (List.not_mem_nil _)
  · rw [if_neg hp] at hmem
    exact publicJoin_snapshot_strokes st sock sessionId userId username doc ss
      hc tgt snap hmem

theorem joinSession_snapshot_strokes
    (st : ServerState) (sock sessionId userId username : String)
    (sessionName : Option String) (isPrivate : Option Bool)
    (sessionKey : Option String) (ss : SessState)
    (hc : alookup st.activeSessionsInMemory sessionId = some ss) :
    ∀ (tgt : Target) (snap : Snapshot),
      Emit.mk tgt (SEvent.sessionStateEvt snap) ∈
        (joinSession st sock sessionId userId username sessionName isPrivate
          sessionKey).2 →
      snap.whiteboardStrokes = ss.whiteboardStrokes := by
  intro tgt snap hmem
  simp only [joinSession] at hmem
  revert hmem
  cases hdoc : alookup st.mongo sessionId with
  | none =>
    dsimp only
    split
    · intro hmem
      exact joinPhase2_snapshot_strokes _ sock sessionId userId username
        sessionKey _ ss (by exact hc) tgt snap hmem
    · intro hmem
      rcases List.mem_cons.mp hmem with h | h
      · exact absurd (congrArg Emit.event h) (by simp [emitTo])
      · exact absurd h (List.not_mem_nil _)
  | some doc =>
    dsimp only
    intro hmem
    exact joinPhase2_snapshot_strokes _ sock sessionId userId username
      sessionKey doc ss (by exact hc) tgt snap hmem

/-- C7: after the owner replaces the whiteboard with strokes S via
whiteboard-update, the cached session carries exactly S, and any subsequent
successful join of that session — any join whose emissions include a
session-state snapshot, from any socket, with any arguments — carries
whiteboardStrokes equal to S exactly (the second conjunct is stated on the
post-update state, so it covers every fresh join as long as no stroke
mutation has happened in between). -/
theorem C7_update_then_join_roundtrip
    (st : ServerState) (sock sessionId : String) (S : List Stroke)
    (ss : SessState)
    (hc : alookup st.activeSessionsInMemory sessionId = some ss)
    (hown : (alookup st.socketIdToSessionInfo sock).map SockInfo.userId =
      some ss.ownerId) :
    alookup (whiteboardUpdate st sock sessionId
        S).1.activeSessionsInMemory sessionId =
      some {ss with whiteboardStrokes := S} ∧
    (∀ (sock2 userId username : String) (sessionName : Option String)
       (isPrivate : Option Bool) (sessionKey : Option String)
       (tgt : Target) (snap : Snapshot),
      Emit.mk tgt (SEvent.sessionStateEvt snap) ∈
        (joinSession (whiteboardUpdate st sock sessionId S).1 sock2 sessionId
          userId username sessionName isPrivate sessionKey).2 →
      snap.whiteboardStrokes = S) := by
  have hownneg : ¬ ((alookup st.socketIdToSessionInfo sock).map
      SockInfo.userId ≠ some ss.ownerId) := fun hne => hne hown
  have h1 : alookup (whiteboardUpdate st sock sessionId
      S).1.activeSessionsInMemory sessionId =
      some {ss with whiteboardStrokes := S} := by
    unfold whiteboardUpdate
    rw [hc]
    dsimp only
    rw [if_neg hownneg]
    show alookup (updateMongoStrokes _ sessionId S).activeSessionsInMemory
      sessionId = _
    rw [updateMongoStrokes_cache, writeCache_cache, alookup_aset_self]
  refine ⟨h1, ?_⟩
  intro sock2 userId username sessionName isPrivate sessionKey tgt snap hmem
  exact joinSession_snapshot_strokes _ sock2 sessionId userId username
    sessionName isPrivate sessionKey _ h1 tgt snap hmem

/-- The stroke list used by the C7 witness. -/
def exS : List Stroke := [⟨[(1, 2), (3, 4)], "red", 3, "pen", none, none⟩]

/-- C7 witness: the owner A replaces pub's whiteboard with exS; the
subsequent join by B receives a session-state snapshot whose strokes equal
exS exactly. -/
theorem C7_witness :
    Emit.mk (Target.socket "cB")
      (SEvent.sessionStateEvt (mkSnapshot
        {exPub with whiteboardStrokes := exS})) ∈
      (joinSession (whiteboardUpdate exState "cA" "pub" exS).1 "cB" "pub" "B"
        "Bob" none none none).2 ∧
    (mkSnapshot {exPub with whiteboardStrokes := exS}).whiteboardStrokes =
      exS :=
  ⟨by decide,
   (C7_update_then_join_roundtrip exState "cA" "pub" exS exPub (by decide)
      (by decide)).2 "cB" "B" "Bob" none none none (Target.socket "cB")
     (mkSnapshot {exPub with whiteboardStrokes := exS}) (by decide)⟩


/-! ## Connection-registry lemmas and claim C9 -/

theorem mem_sadd {l : List String} {x s : String} (h : s ∈ sadd l x) :
    s ∈ l ∨ s = x := by
  unfold sadd at h
  split at h
  · exact Or.inl h
  · rcases List.mem_append.mp h with h | h
    · exact Or.inl h
    · exact Or.inr (List.mem_singleton.mp h)

theorem not_mem_sdel_self (l : List String) (x : String) : x ∉ sdel l x := by
  induction l with
  | nil => exact List.not_mem_nil x
  | cons y l ih =>
    rw [sdel]
    split
    · exact ih
    · rename_i hy
      intro h
      rcases List.mem_cons.mp h with h | h
      · exact hy h.symm
      · exact ih h

theorem publicJoin_count
    (st : ServerState) (sock sessionId userId username : String)
    (doc : MongoSession) (ss : SessState)
    (hc : alookup st.activeSessionsInMemory sessionId = some ss)
    (hsub : ∀ p ∈ doc.participants, p ∈ ss.participants)
    (hnm : userId ∉ ss.participants)
    (hperm : alookup ss.drawingPermissions userId = none) :
    (alookup (publicJoin st sock sessionId userId username
        doc).1.activeSessionsInMemory sessionId).map
      (fun s => s.participants.length) =
      some (ss.participants.length + 1) := by
  have hfold : List.foldl sadd ss.participants doc.participants =
      ss.participants := foldl_sadd_of_subset doc.participants hsub
  have hmemd : decide (userId ∈ ss.participants) = false := decide_eq_false hnm
  simp [publicJoin, hc, hfold, hmemd, sadd_of_not_mem hnm, hperm,
    roomJoin_cache, writeCache_cache, alookup_aset_self]

theorem joinSession_count
    (st : ServerState) (sock sessionId userId username : String)
    (sessionName : Option String) (isPrivate : Option Bool)
    (sessionKey : Option String) (doc : MongoSession) (ss : SessState)
    (hdoc : alookup st.mongo sessionId = some doc)
    (hpub : doc.isPrivate = false)
    (hc : alookup st.activeSessionsInMemory sessionId = some ss)
    (hsub : ∀ p ∈ doc.participants, p ∈ ss.participants)
    (hnm : userId ∉ ss.participants)
    (hperm : alookup ss.drawingPermissions userId = none) :
    (alookup (joinSession st sock sessionId userId username sessionName
        isPrivate sessionKey).1.activeSessionsInMemory sessionId).map
      (fun s => s.participants.length) =
      some (ss.participants.length + 1) := by
  simp only [joinSession, hdoc]
  unfold joinPhase2
  rw [if_neg (by rw [hpub]; exact Bool.false_ne_true)]
  exact publicJoin_count _ sock sessionId userId username doc ss (by exact hc)
    hsub hnm hperm

/-- C9: a user connecting while already holding a registered channel evicts
the old channel first: when the stale channel was the user's last channel
bound to its session, the user is removed from that session's participant
set — the count drops by exactly one and a user-left broadcast goes to the
room — before the new channel becomes the user's single registry entry and
the old channel's binding and connection are gone; and a subsequent fresh
join to a cached public session raises that session's count by one. -/
theorem C9_single_channel_eviction
    (st : ServerState) (newSock userId oldSock : String) (info : SockInfo)
    (ss : SessState)
    (huid : userId ≠ "")
    (hreg : alookup st.activeUserSockets userId = some oldSock)
    (hinfo : alookup st.socketIdToSessionInfo oldSock = some info)
    (hcache : alookup st.activeSessionsInMemory info.sessionId = some ss)
    (hlast : ∀ s ∈ st.connectedSockets,
      alookup st.socketIdToSessionInfo s =
        some (SockInfo.mk userId info.sessionId) → s = oldSock)
    (hfresh : alookup st.socketIdToSessionInfo newSock = none)
    (hmem : userId ∈ ss.participants)
    (hnodup : ss.participants.Nodup)
    (hne : newSock ≠ oldSock) :
    entriesFor (connectClient st newSock userId).1.activeUserSockets userId =
      [(userId, newSock)] ∧
    alookup (connectClient st newSock userId).1.activeSessionsInMemory
        info.sessionId =
      some {ss with participants := sdel ss.participants userId} ∧
    (sdel ss.participants userId).length + 1 = ss.participants.length ∧
    (connectClient st newSock userId).2 =
      [⟨Target.room info.sessionId,
        SEvent.userLeft userId (sdel ss.participants userId).length none⟩] ∧
    alookup (connectClient st newSock userId).1.socketIdToSessionInfo
      oldSock = none ∧
    oldSock ∉ (connectClient st newSock userId).1.connectedSockets ∧
    (∀ (st2 : ServerState) (sock2 sid2 username2 : String)
       (doc : MongoSession) (ss2 : SessState),
      alookup st2.mongo sid2 = some doc →
      doc.isPrivate = false →
      alookup st2.activeSessionsInMemory sid2 = some ss2 →
      (∀ p ∈ doc.participants, p ∈ ss2.participants) →
      userId ∉ ss2.participants →
      alookup ss2.drawingPermissions userId = none →
      (alookup (joinSession st2 sock2 sid2 userId username2 none none
          none).1.activeSessionsInMemory sid2).map
        (fun s => s.participants.length) =
        some (ss2.participants.length + 1)) := by
  have hothers : (sadd st.connectedSockets newSock).filter
      (fun s => decide (alookup st.socketIdToSessionInfo s =
        some (SockInfo.mk userId info.sessionId)) &&
        decide (s ≠ oldSock)) = [] := by
    rw [List.filter_eq_nil_iff]
    intro s hs
    rcases mem_sadd hs with h | h
    · by_cases hinfos : alookup st.socketIdToSessionInfo s =
        some (SockInfo.mk userId info.sessionId)
      · have hseq := hlast s h hinfos
        simp [hseq]
      · simp [hinfos]
    · subst h
      simp [hfresh]
  dsimp only [connectClient]
  rw [if_pos huid, hreg]
  dsimp only
  rw [hinfo]
  dsimp only
  rw [hcache]
  dsimp only
  rw [hothers]
  dsimp only [List.isEmpty, disconnectSocket, writeCache]
  rw [if_pos rfl]
  refine ⟨entriesFor_aset _ _ _, ?_, length_sdel_of_mem_nodup hnodup hmem,
    rfl, ?_, ?_, ?_⟩
  · exact alookup_aset_self _ _ _
  · show alookup (aerase st.socketIdToSessionInfo oldSock) oldSock = none
    rw [alookup_aerase, if_pos rfl]
  · exact not_mem_sdel_self _ _
  · intro st2 sock2 sid2 username2 doc ss2 hdoc hpub hc2 hsub hnm2 hperm2
    exact joinSession_count st2 sock2 sid2 userId username2 none none none
      doc ss2 hdoc hpub hc2 hsub hnm2 hperm2

/-- The cached public session used by the join-increment part of the C9
witness: owned by A with B not yet a participant. -/
def exPub2 : SessState :=
  { name := "Pub2"
    ownerId := "A"
    participants := ["A"]
    messages := []
    whiteboardStrokes := []
    drawingPermissions := [("A", true)]
    isPrivate := false
    sessionKey := none }

def exPub2Doc : MongoSession :=
  { name := "Pub2"
    host := "A"
    participants := ["A"]
    drawingPermissions := [("A", true)]
    messages := []
    whiteboardStrokes := []
    isPrivate := false
    sessionKey := none }

def exState2 : ServerState :=
  { activeSessionsInMemory := [("p2", exPub2)]
    socketIdToSessionInfo := []
    activeUserSockets := []
    pendingJoinRequests := []
    connectedSockets := []
    rooms := []
    mongo := [("p2", exPub2Doc)]
    deletionScheduled := [] }

/-- C9 witness: B reconnects on socket cB2 while registered on cB as the
last channel bound to pub — the registry ends with the single entry cB2,
pub's count drops by one with a user-left broadcast — and a subsequent
fresh join by B of the cached public session p2 raises its count from 1
to 2. -/
theorem C9_witness :
    entriesFor (connectClient exState "cB2" "B").1.activeUserSockets "B" =
      [("B", "cB2")] ∧
    (connectClient exState "cB2" "B").2 =
      [⟨Target.room "pub",
        SEvent.userLeft "B" (sdel exPub.participants "B").length none⟩] ∧
    (alookup (joinSession exState2 "cB2" "p2" "B" "Bob" none none
        none).1.activeSessionsInMemory "p2").map
      (fun s => s.participants.length) =
      some (exPub2.participants.length + 1) :=
  have h := C9_single_channel_eviction exState "cB2" "B" "cB" ⟨"B", "pub"⟩
    exPub (by decide) (by decide) (by decide) (by decide) (by decide)
    (by decide) (by decide) (by decide) (by decide)
  ⟨h.1, h.2.2.2.1, h.2.2.2.2.2.2 exState2 "cB2" "p2" "Bob" exPub2Doc exPub2
    (by decide) (by decide) (by decide) (by decide) (by decide) (by decide)⟩

end Whiteboard
